import Mathlib

/-!
# Traffic recorder and reader: a shallow embedding

This development embeds the wire-packet codec, the recording writer loop and
the offline reader of the traffic-recording subsystem
(`traffic_recorder.cpp`, `traffic_reader.cpp`) and proves the specified
properties about them.

Bytes are modelled as natural numbers below 256 inside `List Nat`; machine
integers are natural numbers reduced modulo `2 ^ 32` or `2 ^ 64` exactly where
the C++ code performs fixed-width arithmetic.
-/

namespace TrafficRecording

/-- Little-endian value of a byte list: `leVal [b0, b1, ...] = b0 + 256*b1 + ...`.
Models `ConstDataView::read<LittleEndian<uintN_t>>` over the bytes it consumes. -/
def leVal : List Nat → Nat
  | [] => 0
  | b :: r => b + 256 * leVal r

/-- Little-endian encoding of `n` into exactly `w` bytes (truncating modulo
`2 ^ (8 * w)`), modelling `DataBuilder::writeAndAdvance<LittleEndian<uintN_t>>`. -/
def leBytes : Nat → Nat → List Nat
  | 0, _ => []
  | w + 1, n => n % 256 :: leBytes w (n / 256)

theorem leBytes_length (w n : Nat) : (leBytes w n).length = w := by
  induction w generalizing n with
  | zero => rfl
  | succ w ih => simp [leBytes, ih]

theorem leVal_leBytes (w n : Nat) : leVal (leBytes w n) = n % 256 ^ w := by
  induction w generalizing n with
  | zero => simp [leBytes, leVal, Nat.mod_one]
  | succ w ih =>
    simp only [leBytes, leVal, ih]
    rw [pow_succ, mul_comm (256 ^ w) 256, Nat.mod_mul]

theorem leBytes_lt (w n : Nat) : ∀ b ∈ leBytes w n, b < 256 := by
  induction w generalizing n with
  | zero => intro b hb; simp [leBytes] at hb
  | succ w ih =>
    intro b hb
    simp only [leBytes, List.mem_cons] at hb
    rcases hb with h | h
    · omega
    · exact ih _ _ h

/-- The in-memory packet, as produced by `readPacket` (struct
`TrafficReaderPacket`) and consumed by the writer thread (struct
`TrafficRecordingPacket`: same fields, with `now` the millisecond timestamp). -/
structure TrafficReaderPacket where
  id : Nat
  local_ : List Nat
  remote : List Nat
  date : Nat
  order : Nat
  message : List Nat
  deriving Repr, DecidableEq

/-- Errors the reader can raise.  `done` models the `Done` exception thrown by
`readBytes` when `::read` returns 0 (end of file); `packetTooLarge` models the
`"packet too large"` runtime error; `parseError` models a `uassertStatusOK`
failure while cursoring over the frame (missing bytes or missing NUL). -/
inductive ReadErr where
  | done
  | packetTooLarge
  | parseError
  deriving Repr, DecidableEq

/-- `readBytes toRead buf fd`: reads exactly `toRead` bytes from the stream,
throwing `Done` when the stream runs out (`::read` returning 0).  Modelled as
splitting the remaining stream contents. -/
def readBytes (toRead : Nat) (bytes : List Nat) :
    Except ReadErr (List Nat × List Nat) :=
  if toRead ≤ bytes.length then .ok (bytes.take toRead, bytes.drop toRead)
  else .error .done

/-- The byte count of the second `readBytes` call in `readPacket`: the C++
expression `len - 4` evaluated in unsigned 32-bit arithmetic, which wraps
around when `len < 4`. -/
def secondReadLen (len : Nat) : Nat := (len + 2 ^ 32 - 4) % 2 ^ 32

/-- Reads one of the uint64 fields from the frame cursor
(`cdr.readAndAdvance<LittleEndian<uint64_t>>`). -/
def parseU64 (l : List Nat) : Except ReadErr (Nat × List Nat) :=
  if 8 ≤ l.length then .ok (leVal (l.take 8), l.drop 8) else .error .parseError

/-- Reads a NUL-terminated string from the frame cursor
(`cdr.readAndAdvance<Terminated<0, StringData>>`); fails when no NUL
terminator is present in the remaining range. -/
def parseCString : List Nat → Except ReadErr (List Nat × List Nat)
  | [] => .error .parseError
  | b :: rest =>
    if b = 0 then .ok ([], rest)
    else do
      let (s, r) ← parseCString rest
      .ok (b :: s, r)

/-- Parses the fields of one frame out of the cursor range
`(buf, buf + len)`: skip the 4-byte length, then connection id, the two
NUL-terminated endpoints, timestamp, order, and the remaining bytes as the
message view. -/
def parseFrame (fr : List Nat) : Except ReadErr TrafficReaderPacket := do
  if 4 ≤ fr.length then
    let r0 := fr.drop 4
    let (id, r1) ← parseU64 r0
    let (lcl, r2) ← parseCString r1
    let (rmt, r3) ← parseCString r2
    let (date, r4) ← parseU64 r3
    let (ord, r5) ← parseU64 r4
    .ok ⟨id, lcl, rmt, date, ord, r5⟩
  else .error .parseError

/-- `readPacket buf fd`: reads the 4-byte frame length, rejects frames longer
than `1 <<< 26`, reads `len - 4` further bytes (in wrapping uint32 arithmetic)
and parses the frame.  Returns the packet together with the rest of the
stream. -/
def readPacket (bytes : List Nat) :
    Except ReadErr (TrafficReaderPacket × List Nat) := do
  let (hdr, rest1) ← readBytes 4 bytes
  let len := leVal hdr
  if len > 2 ^ 26 then .error .packetTooLarge
  else do
    let (body, rest2) ← readBytes (secondReadLen len) rest1
    let p ← parseFrame ((hdr ++ body).take len)
    .ok (p, rest2)

/-- The total frame size computed by the writer thread:
`db.size() + toWrite.size()`, where the data builder holds the 4-byte length
placeholder, the 8-byte id, both NUL-terminated endpoints and the two 8-byte
timestamp/order fields. -/
def frameSize (p : TrafficReaderPacket) : Nat :=
  30 + p.local_.length + p.remote.length + p.message.length

/-- One on-disk frame as emitted by the body of
`TrafficRecorder::Recording::run`: length prefix (patched in after the size is
known, as a uint32), id, local endpoint, NUL, remote endpoint, NUL, timestamp
in milliseconds, order, then the raw message bytes. -/
def encodePacket (p : TrafficReaderPacket) : List Nat :=
  leBytes 4 (frameSize p) ++ leBytes 8 p.id ++
    p.local_ ++ [0] ++ p.remote ++ [0] ++
    leBytes 8 p.date ++ leBytes 8 p.order ++ p.message

theorem encodePacket_length (p : TrafficReaderPacket) :
    (encodePacket p).length = frameSize p := by
  simp [encodePacket, frameSize, leBytes_length]
  omega

theorem exceptBind_ok {ε : Type u} {α β : Type v} (a : α)
    (f : α → Except ε β) : (Bind.bind (Except.ok a) f : Except ε β) = f a :=
  rfl

theorem exceptBind_error {ε : Type u} {α β : Type v} (e : ε)
    (f : α → Except ε β) :
    (Bind.bind (Except.error e) f : Except ε β) = .error e :=
  rfl

theorem take_append_of_length {α : Type u} (l1 l2 : List α) (n : Nat)
    (h : n = l1.length) : (l1 ++ l2).take n = l1 := by
  subst h; exact List.take_left l1 l2

theorem drop_append_of_length {α : Type u} (l1 l2 : List α) (n : Nat)
    (h : n = l1.length) : (l1 ++ l2).drop n = l2 := by
  subst h; exact List.drop_left l1 l2

theorem readBytes_append (n : Nat) (l1 l2 : List Nat) (h : n = l1.length) :
    readBytes n (l1 ++ l2) = .ok (l1, l2) := by
  subst h
  simp [readBytes, List.take_left, List.drop_left]

theorem parseU64_append (n : Nat) (r : List Nat) :
    parseU64 (leBytes 8 n ++ r) = .ok (n % 2 ^ 64, r) := by
  have hlen : (leBytes 8 n).length = 8 := leBytes_length 8 n
  have ht : (leBytes 8 n ++ r).take 8 = leBytes 8 n :=
    take_append_of_length _ _ _ hlen.symm
  have hd : (leBytes 8 n ++ r).drop 8 = r :=
    drop_append_of_length _ _ _ hlen.symm
  have hle : 8 ≤ (leBytes 8 n ++ r).length := by
    simp [hlen]
  rw [parseU64, if_pos hle, ht, hd, leVal_leBytes]
  norm_num

theorem parseCString_append (s r : List Nat) (h : 0 ∉ s) :
    parseCString (s ++ 0 :: r) = .ok (s, r) := by
  induction s with
  | nil => simp [parseCString]
  | cons b rest ih =>
    have hb : b ≠ 0 := fun hb => h (by simp [hb])
    have hrest : 0 ∉ rest := fun hm => h (by simp [hm])
    simp [parseCString, hb, ih hrest, exceptBind_ok]

theorem parseFrame_encodePacket (p : TrafficReaderPacket)
    (hl : 0 ∉ p.local_) (hr : 0 ∉ p.remote)
    (hid : p.id < 2 ^ 64) (hd : p.date < 2 ^ 64) (ho : p.order < 2 ^ 64) :
    parseFrame (encodePacket p) = .ok p := by
  have hlen : 4 ≤ (encodePacket p).length := by
    rw [encodePacket_length]; simp [frameSize]; omega
  have hdrop : (encodePacket p).drop 4 =
      leBytes 8 p.id ++ (p.local_ ++ 0 :: (p.remote ++ 0 ::
        (leBytes 8 p.date ++ (leBytes 8 p.order ++ p.message)))) := by
    simp only [encodePacket, List.append_assoc, List.singleton_append]
    exact drop_append_of_length _ _ _ (leBytes_length 4 _).symm
  rw [parseFrame]
  simp only [hlen, if_true, hdrop, parseU64_append, parseCString_append _ _ hl,
    parseCString_append _ _ hr, exceptBind_ok, Nat.mod_eq_of_lt hid,
    Nat.mod_eq_of_lt hd, Nat.mod_eq_of_lt ho]

theorem readPacket_frame_roundTrip (p : TrafficReaderPacket) (rest : List Nat)
    (hl : 0 ∉ p.local_) (hr : 0 ∉ p.remote)
    (hid : p.id < 2 ^ 64) (hd : p.date < 2 ^ 64) (ho : p.order < 2 ^ 64)
    (hsz : frameSize p ≤ 2 ^ 26) :
    readPacket (encodePacket p ++ rest) = .ok (p, rest) := by
  have h30 : 30 ≤ frameSize p := by simp [frameSize]; omega
  have hs32 : frameSize p < 2 ^ 32 := by omega
  have htake4 : (encodePacket p).take 4 = leBytes 4 (frameSize p) := by
    simp only [encodePacket, List.append_assoc]
    exact take_append_of_length _ _ _ (leBytes_length 4 _).symm
  have hsplit : encodePacket p ++ rest =
      leBytes 4 (frameSize p) ++ ((encodePacket p).drop 4 ++ rest) := by
    rw [← List.append_assoc, ← htake4, List.take_append_drop]
  have hdlen : ((encodePacket p).drop 4).length = frameSize p - 4 := by
    simp [encodePacket_length]
  have hval : leVal (leBytes 4 (frameSize p)) = frameSize p := by
    rw [leVal_leBytes]
    exact Nat.mod_eq_of_lt (by norm_num at hs32 ⊢; omega)
  have hsec : secondReadLen (frameSize p) = frameSize p - 4 := by
    unfold secondReadLen
    rw [show frameSize p + 2 ^ 32 - 4 = (frameSize p - 4) + 2 ^ 32 by omega,
      Nat.add_mod_right]
    exact Nat.mod_eq_of_lt (by omega)
  rw [readPacket, hsplit,
    readBytes_append 4 _ _ (leBytes_length 4 _).symm]
  simp only [exceptBind_ok, hval]
  rw [if_neg (by omega)]
  rw [readBytes_append (secondReadLen (frameSize p)) _ rest (by rw [hsec, hdlen])]
  simp only [exceptBind_ok]
  have hframe : leBytes 4 (frameSize p) ++ (encodePacket p).drop 4 =
      encodePacket p := by
    rw [← htake4, List.take_append_drop]
  rw [hframe, show (encodePacket p).take (frameSize p) = encodePacket p by
    rw [← encodePacket_length p]; exact List.take_length _,
    parseFrame_encodePacket p hl hr hid hd ho]
  rfl

/-- Claim C1 (round trip): a frame written by the writer thread decodes back,
via `readPacket`, to a packet with identical connection id, endpoints,
millisecond timestamp, order and message bytes, leaving the rest of the
stream untouched.  The hypotheses record what the recorder guarantees for
accepted packets: endpoint strings contain no NUL byte, the numeric fields fit
in 64 bits, and the frame respects the 64 MiB ceiling of the wire protocol. -/
theorem readPacket_encodePacket (p : TrafficReaderPacket) (rest : List Nat)
    (hl : 0 ∉ p.local_) (hr : 0 ∉ p.remote)
    (hid : p.id < 2 ^ 64) (hd : p.date < 2 ^ 64) (ho : p.order < 2 ^ 64)
    (hsz : frameSize p ≤ 2 ^ 26) :
    readPacket (encodePacket p ++ rest) = .ok (p, rest) :=
  readPacket_frame_roundTrip p rest hl hr hid hd ho hsz

/-- Concrete instance of the round-trip theorem at an explicit packet. -/
theorem readPacket_encodePacket_witness :
    readPacket (encodePacket ⟨7, [49, 58, 50], [51, 58, 52], 1234, 1, [5, 0, 0, 0, 9]⟩ ++ [1, 2]) =
      .ok (⟨7, [49, 58, 50], [51, 58, 52], 1234, 1, [5, 0, 0, 0, 9]⟩, [1, 2]) :=
  readPacket_encodePacket ⟨7, [49, 58, 50], [51, 58, 52], 1234, 1, [5, 0, 0, 0, 9]⟩ [1, 2]
    (by decide) (by decide) (by norm_num) (by norm_num) (by norm_num) (by norm_num [frameSize])

theorem parseU64_error_eq (l : List Nat) (e : ReadErr)
    (h : parseU64 l = .error e) : e = .parseError := by
  rw [parseU64] at h
  by_cases hc : 8 ≤ l.length
  · rw [if_pos hc] at h; cases h
  · rw [if_neg hc] at h; cases h; rfl

theorem parseCString_error_eq (l : List Nat) (e : ReadErr)
    (h : parseCString l = .error e) : e = .parseError := by
  induction l with
  | nil => rw [parseCString] at h; cases h; rfl
  | cons b rest ih =>
    rw [parseCString] at h
    by_cases hb : b = 0
    · rw [if_pos hb] at h; cases h
    · rw [if_neg hb] at h
      cases hr : parseCString rest with
      | error e2 =>
        rw [hr, exceptBind_error] at h
        cases h
        exact ih hr
      | ok v =>
        rw [hr, exceptBind_ok] at h
        cases h

theorem parseFrame_ne_tooLarge (fr : List Nat) :
    parseFrame fr ≠ .error .packetTooLarge := by
  rw [parseFrame]
  by_cases h4 : 4 ≤ fr.length
  · rw [if_pos h4]
    cases h1 : parseU64 (fr.drop 4) with
    | error e =>
      simp only [h1, exceptBind_error]
      have := parseU64_error_eq _ _ h1
      simp [this]
    | ok v1 =>
      simp only [h1, exceptBind_ok]
      cases h2 : parseCString v1.2 with
      | error e =>
        simp only [h2, exceptBind_error]
        have := parseCString_error_eq _ _ h2
        simp [this]
      | ok v2 =>
        simp only [h2, exceptBind_ok]
        cases h3 : parseCString v2.2 with
        | error e =>
          simp only [h3, exceptBind_error]
          have := parseCString_error_eq _ _ h3
          simp [this]
        | ok v3 =>
          simp only [h3, exceptBind_ok]
          cases h4' : parseU64 v3.2 with
          | error e =>
            simp only [h4', exceptBind_error]
            have := parseU64_error_eq _ _ h4'
            simp [this]
          | ok v4 =>
            simp only [h4', exceptBind_ok]
            cases h5 : parseU64 v4.2 with
            | error e =>
              simp only [h5, exceptBind_error]
              have := parseU64_error_eq _ _ h5
              simp [this]
            | ok v5 =>
              simp only [h5, exceptBind_ok]
              simp
  · rw [if_neg h4]
    simp

theorem readPacket_tooLarge_of_lt (len : Nat) (rest : List Nat)
    (h32 : len < 2 ^ 32) (h26 : 2 ^ 26 < len) :
    readPacket (leBytes 4 len ++ rest) = .error .packetTooLarge := by
  have hval : leVal (leBytes 4 len) = len := by
    rw [leVal_leBytes]
    exact Nat.mod_eq_of_lt (by norm_num at h32 ⊢; omega)
  rw [readPacket, readBytes_append 4 _ _ (leBytes_length 4 _).symm]
  simp only [exceptBind_ok, hval]
  rw [if_pos (by omega)]

theorem readPacket_ne_tooLarge_of_le (len : Nat) (rest : List Nat)
    (h32 : len < 2 ^ 32) (h26 : len ≤ 2 ^ 26) :
    readPacket (leBytes 4 len ++ rest) ≠ .error .packetTooLarge := by
  have hval : leVal (leBytes 4 len) = len := by
    rw [leVal_leBytes]
    exact Nat.mod_eq_of_lt (by norm_num at h32 ⊢; omega)
  rw [readPacket, readBytes_append 4 _ _ (leBytes_length 4 _).symm]
  simp only [exceptBind_ok, hval]
  rw [if_neg (by omega)]
  cases hb : readBytes (secondReadLen len) rest with
  | error e =>
    rw [exceptBind_error]
    rw [readBytes] at hb
    by_cases hc : secondReadLen len ≤ rest.length
    · rw [if_pos hc] at hb; cases hb
    · rw [if_neg hc] at hb; cases hb; simp
  | ok v =>
    rw [exceptBind_ok]
    cases hp : parseFrame ((leBytes 4 len ++ v.1).take len) with
    | error e =>
      rw [exceptBind_error]
      intro hcontra
      cases hcontra
      exact parseFrame_ne_tooLarge _ hp
    | ok p =>
      rw [exceptBind_ok]
      simp

/-- Claim C5 (size ceiling): any frame whose 4-byte length prefix is strictly
greater than `2 ^ 26` is rejected as `packetTooLarge` before any further bytes
are read; in particular a first frame length of `2 ^ 27` fails that way, while
a frame length of exactly `2 ^ 26` is never rejected by this check. -/
theorem readPacket_size_ceiling :
    (∀ len rest, len < 2 ^ 32 → 2 ^ 26 < len →
      readPacket (leBytes 4 len ++ rest) = .error .packetTooLarge) ∧
    (∀ rest, readPacket (leBytes 4 (2 ^ 27) ++ rest) = .error .packetTooLarge) ∧
    (∀ rest, readPacket (leBytes 4 (2 ^ 26) ++ rest) ≠ .error .packetTooLarge) :=
  ⟨readPacket_tooLarge_of_lt,
   fun rest => readPacket_tooLarge_of_lt _ rest (by norm_num) (by norm_num),
   fun rest => readPacket_ne_tooLarge_of_le _ rest (by norm_num) (le_refl _)⟩

/-- Concrete instance of the size-ceiling theorem: a stream whose first frame
length reads as `2 ^ 27` is rejected as too large. -/
theorem readPacket_size_ceiling_witness :
    readPacket (leBytes 4 (2 ^ 27)) = .error .packetTooLarge := by
  have h := readPacket_size_ceiling.2.1 []
  rwa [List.append_nil] at h

/-- Claim C9 (missing lower bound): a frame whose length prefix is strictly
less than 4 is not rejected as corrupt; `len - 4` wraps in unsigned 32-bit
arithmetic, so the second `readBytes` call asks for `len + 2 ^ 32 - 4` bytes
(up to `2 ^ 32 - 1`, far beyond the `2 ^ 26`-byte scratch buffer), and on any
stream shorter than that the reader ends with `done` instead of reporting the
frame as corrupt. -/
theorem readPacket_no_lower_bound (len : Nat) (bytes : List Nat)
    (h4 : len < 4) (hb : bytes.length < secondReadLen len) :
    ¬ 2 ^ 26 < len ∧
    secondReadLen len = len + (2 ^ 32 - 4) ∧
    2 ^ 26 < secondReadLen len ∧
    secondReadLen len ≤ 2 ^ 32 - 1 ∧
    (len = 3 → secondReadLen len = 2 ^ 32 - 1) ∧
    readPacket (leBytes 4 len ++ bytes) = .error .done := by
  have hsec : secondReadLen len = len + (2 ^ 32 - 4) := by
    unfold secondReadLen
    exact Nat.mod_eq_of_lt (by omega)
  refine ⟨by omega, hsec, by omega, by omega, by omega, ?_⟩
  have hval : leVal (leBytes 4 len) = len := by
    rw [leVal_leBytes]
    exact Nat.mod_eq_of_lt (by norm_num; omega)
  rw [readPacket, readBytes_append 4 _ _ (leBytes_length 4 _).symm]
  simp only [exceptBind_ok, hval]
  rw [if_neg (by omega)]
  rw [show readBytes (secondReadLen len) bytes = .error .done from by
    rw [readBytes, if_neg (by omega)]]
  rw [exceptBind_error]

/-- Concrete instance of the missing-lower-bound theorem at frame length 0
over an empty remainder. -/
theorem readPacket_no_lower_bound_witness :
    readPacket (leBytes 4 0 ++ []) = .error .done :=
  (readPacket_no_lower_bound 0 [] (by decide)
    (by decide)).2.2.2.2.2

/-- `rfind(':')` over the byte string: index of the last colon byte (58),
or `none` when the string has no colon (`std::string::npos`). -/
def rfindColon : List Nat → Option Nat
  | [] => none
  | c :: cs =>
    match rfindColon cs with
    | some i => some (i + 1)
    | none => if c = 58 then some 0 else none

/-- The endpoint fields appended by `getBSONObjFromPacket`: when both
addresses contain a colon, the substrings after the last colon of the local
and remote addresses become `(srcendpoint, destendpoint)` — in that order for
a nonzero `response_to_id`, swapped for a zero one; when either address lacks
a colon both fields are omitted. -/
def endpointFields (lcl rmt : List Nat) (responseTo : Nat) :
    Option (List Nat × List Nat) :=
  match rfindColon lcl, rfindColon rmt with
  | some li, some ri =>
    let l := lcl.drop (li + 1)
    let r := rmt.drop (ri + 1)
    if responseTo ≠ 0 then some (l, r) else some (r, l)
  | _, _ => none

/-- Modelled from the spec's words: the "substring after the last `:`" of an
address, written without index arithmetic, to compare with the code's
`rfind`/`substr` combination. -/
def afterLastColonSpec (s : List Nat) : List Nat :=
  (s.reverse.takeWhile (fun b => b != 58)).reverse

theorem takeWhile_append_of_exists {α : Type u} (P : α → Bool)
    (l1 l2 : List α) (h : ∃ x ∈ l1, P x = false) :
    (l1 ++ l2).takeWhile P = l1.takeWhile P := by
  induction l1 with
  | nil => obtain ⟨x, hx, _⟩ := h; cases hx
  | cons a l ih =>
    cases ha : P a with
    | false => simp [List.takeWhile_cons, ha]
    | true =>
      simp only [List.cons_append, List.takeWhile_cons, ha]
      obtain ⟨x, hx, hPx⟩ := h
      rcases List.mem_cons.mp hx with rfl | hxl
      · rw [ha] at hPx; cases hPx
      · rw [ih ⟨x, hxl, hPx⟩]

theorem takeWhile_append_of_all {α : Type u} (P : α → Bool)
    (l1 l2 : List α) (h : ∀ x ∈ l1, P x = true) :
    (l1 ++ l2).takeWhile P = l1 ++ l2.takeWhile P := by
  induction l1 with
  | nil => simp
  | cons a l ih =>
    have ha : P a = true := h a (List.mem_cons_self a l)
    simp only [List.cons_append, List.takeWhile_cons, ha, if_true]
    rw [ih (fun x hx => h x (List.mem_cons_of_mem a hx))]

theorem rfindColon_eq_none (s : List Nat) :
    rfindColon s = none ↔ 58 ∉ s := by
  induction s with
  | nil => simp [rfindColon]
  | cons c cs ih =>
    rw [rfindColon]
    cases hcs : rfindColon cs with
    | some i =>
      have hmem : (58 : Nat) ∈ cs := by
        by_contra hn
        have hnone := ih.mpr hn
        rw [hnone] at hcs
        cases hcs
      constructor
      · intro h; cases h
      · intro h; exact (h (List.mem_cons_of_mem c hmem)).elim
    | none =>
      by_cases hc : c = 58
      · subst hc
        simp
      · have h58 : (58 : Nat) ∉ cs := ih.mp hcs
        simp [hc, Ne.symm hc, h58]

theorem rfindColon_drop (s : List Nat) (i : Nat)
    (h : rfindColon s = some i) :
    s.drop (i + 1) = afterLastColonSpec s := by
  induction s generalizing i with
  | nil => cases h
  | cons c cs ih =>
    rw [rfindColon] at h
    cases hcs : rfindColon cs with
    | some j =>
      rw [hcs] at h
      cases h
      have hmem : (58 : Nat) ∈ cs := by
        by_contra hn
        rw [← rfindColon_eq_none] at hn
        rw [hn] at hcs; cases hcs
      have hspec : afterLastColonSpec (c :: cs) = afterLastColonSpec cs := by
        unfold afterLastColonSpec
        rw [List.reverse_cons,
          takeWhile_append_of_exists _ _ _
            ⟨58, List.mem_reverse.mpr hmem, by simp⟩]
      rw [hspec, ← ih j hcs]
      rfl
    | none =>
      rw [hcs] at h
      by_cases hc : c = 58
      · rw [if_pos hc] at h
        cases h
        subst hc
        have h58 : (58 : Nat) ∉ cs := (rfindColon_eq_none cs).mp hcs
        unfold afterLastColonSpec
        rw [List.reverse_cons,
          takeWhile_append_of_all _ _ _ (fun x hx => by
            have : x ∈ cs := List.mem_reverse.mp hx
            simp only [bne_iff_ne, ne_eq, decide_eq_true_eq]
            intro hxe; subst hxe; exact h58 this)]
        simp [List.takeWhile_cons]
      · rw [if_neg hc] at h
        cases h

theorem rfindColon_isSome_iff (s : List Nat) :
    (∃ i, rfindColon s = some i) ↔ 58 ∈ s := by
  constructor
  · rintro ⟨i, hi⟩
    by_contra h
    rw [← rfindColon_eq_none] at h
    rw [h] at hi; cases hi
  · intro h
    cases hs : rfindColon s with
    | some i => exact ⟨i, rfl⟩
    | none => exact absurd ((rfindColon_eq_none s).mp hs) (by simp [h])

/-- Claim C6 (endpoint direction): the document builder emits
`(srcendpoint, destendpoint)` as the after-last-colon substrings of
`(local, remote)` when the message's `response_to_id` is nonzero, of
`(remote, local)` when it is zero, and omits both fields whenever either
address contains no colon byte. -/
theorem endpointFields_direction (lcl rmt : List Nat) (responseTo : Nat) :
    endpointFields lcl rmt responseTo =
      if 58 ∈ lcl ∧ 58 ∈ rmt then
        (if responseTo ≠ 0 then
          some (afterLastColonSpec lcl, afterLastColonSpec rmt)
        else
          some (afterLastColonSpec rmt, afterLastColonSpec lcl))
      else none := by
  rw [endpointFields]
  cases hl : rfindColon lcl with
  | none =>
    have : (58 : Nat) ∉ lcl := (rfindColon_eq_none lcl).mp hl
    rw [if_neg (by tauto)]
  | some li =>
    cases hr : rfindColon rmt with
    | none =>
      have : (58 : Nat) ∉ rmt := (rfindColon_eq_none rmt).mp hr
      rw [if_neg (by tauto)]
    | some ri =>
      have hml : (58 : Nat) ∈ lcl := by
        rcases (rfindColon_isSome_iff lcl).mp ⟨li, hl⟩ with h; exact h
      have hmr : (58 : Nat) ∈ rmt := by
        rcases (rfindColon_isSome_iff rmt).mp ⟨ri, hr⟩ with h; exact h
      rw [if_pos ⟨hml, hmr⟩]
      show (if responseTo ≠ 0 then
          some (lcl.drop (li + 1), rmt.drop (ri + 1))
        else some (rmt.drop (ri + 1), lcl.drop (li + 1))) = _
      rw [rfindColon_drop _ _ hl, rfindColon_drop _ _ hr]

/-- `MsgData::ConstView::getLen`: little-endian int32 at offset 0 of the
message. -/
def msgLen (m : List Nat) : Nat := leVal (m.take 4)

/-- `MsgData::ConstView::getId`: little-endian int32 at offset 4. -/
def msgId (m : List Nat) : Nat := leVal ((m.drop 4).take 4)

/-- `MsgData::ConstView::getResponseToMsgId`: little-endian int32 at
offset 8. -/
def msgResponseTo (m : List Nat) : Nat := leVal ((m.drop 8).take 4)

/-- `MsgData::ConstView::getNetworkOp`: little-endian int32 at offset 12. -/
def msgNetworkOp (m : List Nat) : Nat := leVal ((m.drop 12).take 4)

/-- The epoch-conversion constant of the reader, exactly as the C++ integer
expression computes it:
`(1969 * 365 + 1969 / 4 - 1969 / 100 + 1969 / 400) * 86400`. -/
def unixToInternal : Nat :=
  (1969 * 365 + 1969 / 4 - 1969 / 100 + 1969 / 400) * 86400

/-- The per-packet document produced by `getBSONObjFromPacket` (without the
optional `opType` field, which `mongoTrafficReaderMain` does not request):
the `rawop.header` int32 fields, the raw message as `rawop.body`, the
`seen` instant, the optional endpoint pair, and the remaining constants. -/
structure ReplayDoc where
  messagelength : Nat
  requestid : Nat
  responseto : Nat
  opcode : Nat
  body : List Nat
  seenSec : Nat
  seenNsec : Nat
  srcdest : Option (List Nat × List Nat)
  order : Nat
  seenconnectionnum : Nat
  playedconnectionnum : Nat
  generation : Nat
  deriving Repr, DecidableEq

/-- `getBSONObjFromPacket packet` (with `withOpType = false`): builds the
mongoreplay representation of one packet. -/
def getBSONObjFromPacket (p : TrafficReaderPacket) : ReplayDoc :=
  { messagelength := msgLen p.message % 2 ^ 32
    requestid := msgId p.message % 2 ^ 32
    responseto := msgResponseTo p.message % 2 ^ 32
    opcode := msgNetworkOp p.message % 2 ^ 32
    body := p.message
    seenSec := p.date / 1000 + unixToInternal
    seenNsec := p.order % 2 ^ 32
    srcdest := endpointFields p.local_ p.remote (msgResponseTo p.message)
    order := p.order
    seenconnectionnum := p.id
    playedconnectionnum := 0
    generation := 0 }

/-- Claim C6 (endpoint direction, at the document builder): `srcendpoint` is
the after-last-colon substring of the local address and `destendpoint` that of
the remote address when `response_to_id` is nonzero; the two are swapped when
it is zero; both fields are omitted whenever either address has no colon. -/
theorem getBSONObjFromPacket_endpoints (p : TrafficReaderPacket) :
    (getBSONObjFromPacket p).srcdest =
      if 58 ∈ p.local_ ∧ 58 ∈ p.remote then
        (if msgResponseTo p.message ≠ 0 then
          some (afterLastColonSpec p.local_, afterLastColonSpec p.remote)
        else
          some (afterLastColonSpec p.remote, afterLastColonSpec p.local_))
      else none := by
  show endpointFields p.local_ p.remote (msgResponseTo p.message) = _
  exact endpointFields_direction p.local_ p.remote (msgResponseTo p.message)

/-- Claim C7 (epoch offset): the reader emits
`seen.sec = ts_ms / 1000 + 62135596800` in integer arithmetic, and the offset
constant is exactly the integer-arithmetic value of
`(1969*365 + 1969/4 - 1969/100 + 1969/400) * 86400`. -/
theorem getBSONObjFromPacket_seenSec :
    unixToInternal = 62135596800 ∧
    (1969 * 365 + 1969 / 4 - 1969 / 100 + 1969 / 400) * 86400 = 62135596800 ∧
    ∀ p : TrafficReaderPacket,
      (getBSONObjFromPacket p).seenSec = p.date / 1000 + 62135596800 := by
  refine ⟨by norm_num [unixToInternal], by norm_num, fun p => ?_⟩
  show p.date / 1000 + unixToInternal = p.date / 1000 + 62135596800
  norm_num [unixToInternal]

/-- The byte contents of a recording file holding the frames of the given
packets in order. -/
def encodeFile (ps : List TrafficReaderPacket) : List Nat :=
  (ps.map encodePacket).flatten

theorem encodeFile_nil : encodeFile [] = [] := rfl

theorem encodeFile_cons (p : TrafficReaderPacket)
    (ps : List TrafficReaderPacket) :
    encodeFile (p :: ps) = encodePacket p ++ encodeFile ps := by
  simp [encodeFile]

theorem encodeFile_append (a b : List TrafficReaderPacket) :
    encodeFile (a ++ b) = encodeFile a ++ encodeFile b := by
  simp [encodeFile]

/-- The well-formedness facts the recorder guarantees for every packet it
accepts: endpoint strings without NUL bytes, 64-bit numeric fields, and the
implicit 64 MiB message ceiling of the upstream wire protocol. -/
def GoodPacket (p : TrafficReaderPacket) : Prop :=
  0 ∉ p.local_ ∧ 0 ∉ p.remote ∧ p.id < 2 ^ 64 ∧ p.date < 2 ^ 64 ∧
    p.order < 2 ^ 64 ∧ frameSize p ≤ 2 ^ 26

instance (p : TrafficReaderPacket) : Decidable (GoodPacket p) := by
  unfold GoodPacket
  infer_instance

theorem readPacket_nil : readPacket [] = .error .done := rfl

/-- One output document of the reader's streaming mode: the version-header
document `{playbackfileversion, driveropsfiltered}` or a per-packet
document. -/
inductive OutDoc where
  | header (playbackfileversion : Nat) (driveropsfiltered : Bool)
  | packetDoc (d : ReplayDoc)
  deriving Repr, DecidableEq

/-- The reading loop of `mongoTrafficReaderMain`: repeatedly `readPacket`,
emit one document per decoded frame, stop with exit code 0 when `Done` is
thrown, and propagate any other exception (no exit code).  Structured on
explicit fuel; each decoded frame consumes at least four bytes, so fuel
`input.length + 1` never runs out. -/
def streamLoop : Nat → List Nat → List OutDoc × Option Nat
  | 0, _ => ([], none)
  | fuel + 1, bytes =>
    match readPacket bytes with
    | .error .done => ([], some 0)
    | .error _ => ([], none)
    | .ok (p, rest) =>
      let r := streamLoop fuel rest
      (.packetDoc (getBSONObjFromPacket p) :: r.1, r.2)

/-- `mongoTrafficReaderMain input fd`: writes the header document
`{playbackfileversion: 1, driveropsfiltered: false}`, then one document per
decoded frame, and returns 0 when the read loop ends with `Done`. -/
def mongoTrafficReaderMain (input : List Nat) : List OutDoc × Option Nat :=
  let r := streamLoop (input.length + 1) input
  (.header 1 false :: r.1, r.2)

theorem streamLoop_encodeFile (ps : List TrafficReaderPacket) :
    ∀ fuel, (∀ p ∈ ps, GoodPacket p) → (encodeFile ps).length < fuel →
    streamLoop fuel (encodeFile ps) =
      (ps.map (fun p => OutDoc.packetDoc (getBSONObjFromPacket p)), some 0) := by
  induction ps with
  | nil =>
    intro fuel _ hf
    match fuel, hf with
    | f + 1, _ =>
      rw [encodeFile_nil, streamLoop, readPacket_nil]
      rfl
  | cons p ps ih =>
    intro fuel hg hf
    obtain ⟨hp, hps⟩ : GoodPacket p ∧ ∀ q ∈ ps, GoodPacket q :=
      ⟨hg p (List.mem_cons_self p ps), fun q hq => hg q (List.mem_cons_of_mem p hq)⟩
    obtain ⟨h1, h2, h3, h4, h5, h6⟩ := hp
    have hlen : (encodeFile (p :: ps)).length =
        frameSize p + (encodeFile ps).length := by
      rw [encodeFile_cons]
      simp [encodePacket_length]
    have h30 : 30 ≤ frameSize p := by simp [frameSize]; omega
    match fuel, hf with
    | f + 1, hf =>
      rw [encodeFile_cons, streamLoop,
        readPacket_frame_roundTrip p (encodeFile ps) h1 h2 h3 h4 h5 h6]
      have hff : (encodeFile ps).length < f := by
        rw [hlen] at hf; omega
      show (OutDoc.packetDoc (getBSONObjFromPacket p) ::
          (streamLoop f (encodeFile ps)).1,
        (streamLoop f (encodeFile ps)).2) = _
      rw [ih f hps hff]
      rfl

/-- Claim C8 (streaming output): `mongoTrafficReaderMain` always emits the
header document `{playbackfileversion: 1, driveropsfiltered: false}` first;
over a file of well-formed frames it emits the header followed by exactly one
document per frame in frame order and returns 0 on the clean EOF; over an
empty input it emits exactly the header document and returns 0. -/
theorem mongoTrafficReaderMain_spec :
    (∀ input, (mongoTrafficReaderMain input).1.head? =
      some (.header 1 false)) ∧
    (∀ ps, (∀ p ∈ ps, GoodPacket p) →
      mongoTrafficReaderMain (encodeFile ps) =
        (.header 1 false ::
          ps.map (fun p => OutDoc.packetDoc (getBSONObjFromPacket p)),
         some 0)) ∧
    mongoTrafficReaderMain [] = ([.header 1 false], some 0) := by
  refine ⟨fun input => rfl, fun ps hg => ?_, rfl⟩
  show (_ :: (streamLoop ((encodeFile ps).length + 1) (encodeFile ps)).1,
    (streamLoop ((encodeFile ps).length + 1) (encodeFile ps)).2) = _
  rw [streamLoop_encodeFile ps ((encodeFile ps).length + 1) hg (by omega)]

/-- Concrete instance of the streaming theorem over a one-frame file. -/
theorem mongoTrafficReaderMain_spec_witness :
    mongoTrafficReaderMain (encodeFile [⟨7, [58], [58], 0, 1, []⟩]) =
      ([.header 1 false,
        .packetDoc (getBSONObjFromPacket ⟨7, [58], [58], 0, 1, []⟩)],
       some 0) :=
  mongoTrafficReaderMain_spec.2.1 [⟨7, [58], [58], 0, 1, []⟩] (by decide)

/-- The loop of `mongoGetRecordedDocuments`: decode every frame until `Done`,
collecting the packets; any other reader exception aborts the whole read. -/
def readAllLoop : Nat → List Nat → Except ReadErr (List TrafficReaderPacket)
  | 0, _ => .error .parseError
  | fuel + 1, bytes =>
    match readPacket bytes with
    | .error .done => .ok []
    | .error e => .error e
    | .ok (p, rest) =>
      match readAllLoop fuel rest with
      | .ok ps => .ok (p :: ps)
      | .error e => .error e

/-- All packets decoded from a recording file, in file order. -/
def readAllPackets (input : List Nat) :
    Except ReadErr (List TrafficReaderPacket) :=
  readAllLoop (input.length + 1) input

theorem readAllLoop_encodeFile (ps : List TrafficReaderPacket) :
    ∀ fuel, (∀ p ∈ ps, GoodPacket p) → (encodeFile ps).length < fuel →
    readAllLoop fuel (encodeFile ps) = .ok ps := by
  induction ps with
  | nil =>
    intro fuel _ hf
    match fuel, hf with
    | f + 1, _ =>
      rw [encodeFile_nil, readAllLoop, readPacket_nil]
  | cons p ps ih =>
    intro fuel hg hf
    obtain ⟨hp, hps⟩ : GoodPacket p ∧ ∀ q ∈ ps, GoodPacket q :=
      ⟨hg p (List.mem_cons_self p ps), fun q hq => hg q (List.mem_cons_of_mem p hq)⟩
    obtain ⟨h1, h2, h3, h4, h5, h6⟩ := hp
    have hlen : (encodeFile (p :: ps)).length =
        frameSize p + (encodeFile ps).length := by
      rw [encodeFile_cons]
      simp [encodePacket_length]
    have h30 : 30 ≤ frameSize p := by simp [frameSize]; omega
    match fuel, hf with
    | f + 1, hf =>
      rw [encodeFile_cons, readAllLoop,
        readPacket_frame_roundTrip p (encodeFile ps) h1 h2 h3 h4 h5 h6]
      have hff : (encodeFile ps).length < f := by
        rw [hlen] at hf; omega
      show (match readAllLoop f (encodeFile ps) with
        | Except.ok ps2 => Except.ok (p :: ps2)
        | Except.error e => Except.error e) = Except.ok (p :: ps)
      rw [ih f hps hff]

theorem readAllPackets_encodeFile (ps : List TrafficReaderPacket)
    (hg : ∀ p ∈ ps, GoodPacket p) :
    readAllPackets (encodeFile ps) = .ok ps :=
  readAllLoop_encodeFile ps ((encodeFile ps).length + 1) hg (by omega)

/-- Terminal status of the writer thread: OK, or the `LogWriteFailed`
error raised by the `uassert` when the size cap is hit. -/
inductive WStatus where
  | ok
  | logWriteFailed
  deriving Repr, DecidableEq

/-- State of the writer thread: the `_written` byte counter, the bytes on the
output file, and the terminal result. -/
structure WriterState where
  written : Nat
  file : List Nat
  result : WStatus
  deriving Repr, DecidableEq

/-- One iteration of the packet loop in `TrafficRecorder::Recording::run`:
encode the frame, add its size to `_written`, then
`uassert(LogWriteFailed, _written < _maxLogSize)` — and only then write the
frame.  A failed `uassert` throws, so the frame is not written and the writer
thread exits with `LogWriteFailed` (the counter keeps the increment). -/
def writeFrame (maxLogSize : Nat) (s : WriterState) (p : TrafficReaderPacket) :
    WriterState :=
  match s.result with
  | .logWriteFailed => s
  | .ok =>
    let size := frameSize p
    let written := s.written + size
    if written < maxLogSize then
      { written := written, file := s.file ++ encodePacket p, result := .ok }
    else
      { written := written, file := s.file, result := .logWriteFailed }

/-- The writer thread over the sequence of packets it pops from the queue,
starting from an empty truncated file. -/
def runWriter (maxLogSize : Nat) (ps : List TrafficReaderPacket) :
    WriterState :=
  ps.foldl (writeFrame maxLogSize) ⟨0, [], .ok⟩

theorem writeFrame_inv (maxLogSize : Nat) (s : WriterState)
    (p : TrafficReaderPacket)
    (h : (s.file = [] ∨ s.file.length < maxLogSize) ∧
      (s.result = .ok → s.file.length = s.written)) :
    ((writeFrame maxLogSize s p).file = [] ∨
      (writeFrame maxLogSize s p).file.length < maxLogSize) ∧
    ((writeFrame maxLogSize s p).result = .ok →
      (writeFrame maxLogSize s p).file.length =
        (writeFrame maxLogSize s p).written) := by
  obtain ⟨hf, hw⟩ := h
  rw [writeFrame]
  cases hres : s.result with
  | logWriteFailed => exact ⟨hf, by rw [hres]; intro h; cases h⟩
  | ok =>
    by_cases hlt : s.written + frameSize p < maxLogSize
    · rw [if_pos hlt]
      constructor
      · right
        simp only [List.length_append, encodePacket_length, hw hres]
        exact hlt
      · intro _
        simp only [List.length_append, encodePacket_length, hw hres]
    · rw [if_neg hlt]
      exact ⟨hf, fun h => by cases h⟩

theorem foldl_writeFrame_inv (maxLogSize : Nat)
    (ps : List TrafficReaderPacket) :
    ∀ s : WriterState,
    (s.file = [] ∨ s.file.length < maxLogSize) ∧
      (s.result = .ok → s.file.length = s.written) →
    ((ps.foldl (writeFrame maxLogSize) s).file = [] ∨
      (ps.foldl (writeFrame maxLogSize) s).file.length < maxLogSize) ∧
    ((ps.foldl (writeFrame maxLogSize) s).result = .ok →
      (ps.foldl (writeFrame maxLogSize) s).file.length =
        (ps.foldl (writeFrame maxLogSize) s).written) := by
  induction ps with
  | nil => intro s h; exact h
  | cons p ps ih =>
    intro s h
    exact ih (writeFrame maxLogSize s p) (writeFrame_inv maxLogSize s p h)

/-- Claim C2 counterexample (closed): with `max_file_size = 30`, the single
packet whose frame is exactly 30 bytes brings `_written` to exactly the cap —
and the writer rejects it with `LogWriteFailed` instead of emitting it, so
the file stays empty.  The claim predicted that a frame bringing the written
count to exactly `max_file_size` is emitted. -/
theorem writer_exact_cap_rejected :
    frameSize ⟨0, [], [], 0, 0, []⟩ = 30 ∧
    (runWriter 30 [⟨0, [], [], 0, 0, []⟩]).written = 30 ∧
    (runWriter 30 [⟨0, [], [], 0, 0, []⟩]).result = .logWriteFailed ∧
    (runWriter 30 [⟨0, [], [], 0, 0, []⟩]).file = [] := by
  refine ⟨rfl, ?_, ?_, ?_⟩ <;> rfl

/-- Claim C2 as amended: the bytes on the output file never exceed
`max_file_size` (and remain strictly below it whenever the file is nonempty);
a frame is emitted exactly when it keeps the cumulative written count
strictly below `max_file_size`, and the first frame bringing the count to
`max_file_size` or beyond causes terminal `LogWriteFailed` failure before
that frame is written. -/
theorem writer_size_cap (maxLogSize : Nat) (ps : List TrafficReaderPacket)
    (s : WriterState) (p : TrafficReaderPacket) (hok : s.result = .ok) :
    (runWriter maxLogSize ps).file.length ≤ maxLogSize ∧
    ((runWriter maxLogSize ps).file ≠ [] →
      (runWriter maxLogSize ps).file.length < maxLogSize) ∧
    (s.written + frameSize p < maxLogSize →
      writeFrame maxLogSize s p =
        ⟨s.written + frameSize p, s.file ++ encodePacket p, .ok⟩) ∧
    (maxLogSize ≤ s.written + frameSize p →
      writeFrame maxLogSize s p =
        ⟨s.written + frameSize p, s.file, .logWriteFailed⟩) := by
  have hinv := foldl_writeFrame_inv maxLogSize ps ⟨0, [], .ok⟩
    ⟨Or.inl rfl, fun _ => rfl⟩
  refine ⟨?_, ?_, ?_, ?_⟩
  · rcases hinv.1 with h | h
    · rw [runWriter, h]; exact Nat.zero_le _
    · exact Nat.le_of_lt h
  · intro hne
    rcases hinv.1 with h | h
    · exact absurd h hne
    · exact h
  · intro hlt
    rw [writeFrame, hok]
    simp only [if_pos hlt]
  · intro hge
    rw [writeFrame, hok]
    simp only [if_neg (by omega : ¬ s.written + frameSize p < maxLogSize)]

/-- Concrete instance of the amended size-cap theorem: a 31-byte frame is
emitted under a 100-byte cap, and the writer state reflects it. -/
theorem writer_size_cap_witness :
    (runWriter 100 [⟨0, [], [], 0, 1, [7]⟩]).file.length ≤ 100 ∧
    ((runWriter 100 [⟨0, [], [], 0, 1, [7]⟩]).file ≠ [] →
      (runWriter 100 [⟨0, [], [], 0, 1, [7]⟩]).file.length < 100) ∧
    ((0 : Nat) + frameSize ⟨0, [], [], 0, 1, [7]⟩ < 100 →
      writeFrame 100 ⟨0, [], .ok⟩ ⟨0, [], [], 0, 1, [7]⟩ =
        ⟨0 + frameSize ⟨0, [], [], 0, 1, [7]⟩,
          [] ++ encodePacket ⟨0, [], [], 0, 1, [7]⟩, .ok⟩) ∧
    (100 ≤ (0 : Nat) + frameSize ⟨0, [], [], 0, 1, [7]⟩ →
      writeFrame 100 ⟨0, [], .ok⟩ ⟨0, [], [], 0, 1, [7]⟩ =
        ⟨0 + frameSize ⟨0, [], [], 0, 1, [7]⟩, [], .logWriteFailed⟩) :=
  writer_size_cap 100 [⟨0, [], [], 0, 1, [7]⟩] ⟨0, [], .ok⟩
    ⟨0, [], [], 0, 1, [7]⟩ rfl

/-- The data of one `observe(session, now, message)` call: everything except
the order value, which the recorder itself assigns. -/
structure Observation where
  id : Nat
  local_ : List Nat
  remote : List Nat
  now : Nat
  message : List Nat
  deriving Repr, DecidableEq

/-- The packet built by `observe` for one observation and its assigned order
value. -/
def packetOf (o : Observation) (ord : Nat) : TrafficReaderPacket :=
  ⟨o.id, o.local_, o.remote, o.now, ord, o.message⟩

/-- State of the observation front end of one recording, tracking where each
assigned order value currently lives: the `order` counter
(`AtomicWord<uint64_t> order{0}`), the packets whose `observe` call has
performed `order.addAndFetch(1)` but not yet reached `tryPush` (one entry per
paused producer thread), the queue contents, and the packets the writer has
already emitted, in emission order. -/
structure ObsState where
  order : Nat
  inflight : List TrafficReaderPacket
  queue : List TrafficReaderPacket
  written : List TrafficReaderPacket
  deriving Repr, DecidableEq

/-- Interleaved atomic steps of concurrent successful `observe` calls and the
writer.  `observe` evaluates `recording->order.addAndFetch(1)` and then calls
`pushRecord`/`tryPush` with no lock held across the two, so the fetch and the
push of one call are separate steps, and any paused producer (any element of
`inflight`) may perform its push next; the writer pops in FIFO
delivery order (the queue's guarantee, modelled from the spec, its source
being outside this repository).  Only the success path is modelled: the order
claim conditions on a recording that completes OK after successful observes;
failed pushes and the size cap are the business of `Step` above. -/
inductive ObsStep : ObsState → ObsState → Prop where
  | fetch (s : ObsState) (o : Observation) :
      ObsStep s ⟨s.order + 1, s.inflight ++ [packetOf o (s.order + 1)],
        s.queue, s.written⟩
  | push (s : ObsState) (p : TrafficReaderPacket)
      (l1 l2 : List TrafficReaderPacket) :
      s.inflight = l1 ++ p :: l2 →
      ObsStep s ⟨s.order, l1 ++ l2, s.queue ++ [p], s.written⟩
  | write (s : ObsState) (p : TrafficReaderPacket)
      (rest : List TrafficReaderPacket) :
      s.queue = p :: rest →
      ObsStep s ⟨s.order, s.inflight, rest, s.written ++ [p]⟩

/-- Reflexive-transitive closure of `ObsStep`. -/
inductive ObsSteps (s : ObsState) : ObsState → Prop where
  | refl : ObsSteps s s
  | tail {t u : ObsState} : ObsSteps s t → ObsStep t u → ObsSteps s u

/-- A fresh recording: counter 0, nothing in flight, queued or written. -/
def initObsState : ObsState := ⟨0, [], [], []⟩

/-- All order values alive in the system, wherever they currently are. -/
def obsOrders (s : ObsState) : List Nat :=
  (s.inflight ++ s.queue ++ s.written).map TrafficReaderPacket.order

theorem obsStep_orders_perm (s t : ObsState) (h : ObsStep s t)
    (hs : (obsOrders s).Perm (List.range' 1 s.order)) :
    (obsOrders t).Perm (List.range' 1 t.order) := by
  rw [List.perm_iff_count] at hs ⊢
  intro a
  have h2 := hs a
  cases h with
  | fetch o =>
    simp only [obsOrders, List.map_append, List.count_append] at h2 ⊢
    simp only [List.range'_1_concat, List.map_cons, List.map_nil,
      List.count_append, List.count_cons, List.count_nil, beq_iff_eq,
      packetOf]
    split_ifs <;> omega
  | push p l1 l2 hin =>
    rw [obsOrders, hin] at h2
    simp only [List.map_append, List.count_append, List.map_cons,
      List.count_cons, List.count_nil, beq_iff_eq] at h2
    simp only [obsOrders, List.map_append, List.count_append, List.map_cons,
      List.map_nil, List.count_cons, List.count_nil, beq_iff_eq]
    split_ifs at h2 ⊢ <;> omega
  | write p rest hq =>
    rw [obsOrders, hq] at h2
    simp only [List.map_append, List.count_append, List.map_cons,
      List.count_cons, List.count_nil, beq_iff_eq] at h2
    simp only [obsOrders, List.map_append, List.count_append, List.map_cons,
      List.map_nil, List.count_cons, List.count_nil, beq_iff_eq]
    split_ifs at h2 ⊢ <;> omega

/-- In every execution of a recording, the order values distributed across
the in-flight observes, the queue and the written frames are exactly
`1, ..., order` as a multiset: `addAndFetch(1)` hands out each value once and
nothing is dropped on the success path. -/
theorem obsSteps_orders_perm (s : ObsState)
    (h : ObsSteps initObsState s) :
    (obsOrders s).Perm (List.range' 1 s.order) := by
  induction h with
  | refl => exact List.Perm.refl []
  | tail hsteps hstep ih => exact obsStep_orders_perm _ _ hstep ih

/-- Claim C4 counterexample (closed): two concurrent observes fetch orders
1 and 2, but the second pushes first — an execution the source permits, since
`observe` holds no lock between `order.addAndFetch(1)` and `tryPush` — and
the recording then completes cleanly with the file reading back order values
`[2, 1]`, not the claimed ascending sequence `1, 2`. -/
theorem racing_order_counterexample :
    ObsStep ⟨0, [], [], []⟩ ⟨1, [⟨1, [], [], 0, 1, []⟩], [], []⟩ ∧
    ObsStep ⟨1, [⟨1, [], [], 0, 1, []⟩], [], []⟩
      ⟨2, [⟨1, [], [], 0, 1, []⟩, ⟨2, [], [], 0, 2, []⟩], [], []⟩ ∧
    ObsStep ⟨2, [⟨1, [], [], 0, 1, []⟩, ⟨2, [], [], 0, 2, []⟩], [], []⟩
      ⟨2, [⟨1, [], [], 0, 1, []⟩], [⟨2, [], [], 0, 2, []⟩], []⟩ ∧
    ObsStep ⟨2, [⟨1, [], [], 0, 1, []⟩], [⟨2, [], [], 0, 2, []⟩], []⟩
      ⟨2, [], [⟨2, [], [], 0, 2, []⟩, ⟨1, [], [], 0, 1, []⟩], []⟩ ∧
    ObsStep ⟨2, [], [⟨2, [], [], 0, 2, []⟩, ⟨1, [], [], 0, 1, []⟩], []⟩
      ⟨2, [], [⟨1, [], [], 0, 1, []⟩], [⟨2, [], [], 0, 2, []⟩]⟩ ∧
    ObsStep ⟨2, [], [⟨1, [], [], 0, 1, []⟩], [⟨2, [], [], 0, 2, []⟩]⟩
      ⟨2, [], [], [⟨2, [], [], 0, 2, []⟩, ⟨1, [], [], 0, 1, []⟩]⟩ ∧
    readAllPackets (encodeFile
      [⟨2, [], [], 0, 2, []⟩, ⟨1, [], [], 0, 1, []⟩]) =
      .ok [⟨2, [], [], 0, 2, []⟩, ⟨1, [], [], 0, 1, []⟩] ∧
    [⟨2, [], [], 0, 2, []⟩, (⟨1, [], [], 0, 1, []⟩ : TrafficReaderPacket)].map
      TrafficReaderPacket.order = [2, 1] ∧
    ([2, 1] : List Nat) ≠ List.range' 1 2 := by
  refine ⟨?_, ?_, ?_, ?_, ?_, ?_, ?_, rfl, by decide⟩
  · exact ObsStep.fetch ⟨0, [], [], []⟩ ⟨1, [], [], 0, []⟩
  · exact ObsStep.fetch ⟨1, [⟨1, [], [], 0, 1, []⟩], [], []⟩ ⟨2, [], [], 0, []⟩
  · exact ObsStep.push ⟨2, [⟨1, [], [], 0, 1, []⟩, ⟨2, [], [], 0, 2, []⟩],
      [], []⟩ ⟨2, [], [], 0, 2, []⟩ [⟨1, [], [], 0, 1, []⟩] [] rfl
  · exact ObsStep.push ⟨2, [⟨1, [], [], 0, 1, []⟩], [⟨2, [], [], 0, 2, []⟩],
      []⟩ ⟨1, [], [], 0, 1, []⟩ [] [] rfl
  · exact ObsStep.write ⟨2, [], [⟨2, [], [], 0, 2, []⟩, ⟨1, [], [], 0, 1, []⟩],
      []⟩ ⟨2, [], [], 0, 2, []⟩ [⟨1, [], [], 0, 1, []⟩] rfl
  · exact ObsStep.write ⟨2, [], [⟨1, [], [], 0, 1, []⟩],
      [⟨2, [], [], 0, 2, []⟩]⟩ ⟨1, [], [], 0, 1, []⟩ [] rfl
  · exact readAllPackets_encodeFile _ (by decide)

/-- Claim C4 as amended: a recording that completes with an OK terminal
result after N successful observe calls (counter at N, nothing left in
flight or queued) yields a file that decodes back to the written packets,
whose order values are a permutation of `1, 2, ..., N` — each value exactly
once, no gaps, no duplicates, the first assigned value being 1 — in
queue-delivery order, which need not be ascending because the order fetch
and the enqueue of one observe are not atomic. -/
theorem recording_order_permutation (s : ObsState)
    (hrun : ObsSteps initObsState s)
    (hin : s.inflight = []) (hq : s.queue = [])
    (hgood : ∀ p ∈ s.written, GoodPacket p) :
    readAllPackets (encodeFile s.written) = .ok s.written ∧
    s.written.length = s.order ∧
    (s.written.map TrafficReaderPacket.order).Perm
      (List.range' 1 s.written.length) := by
  have hperm := obsSteps_orders_perm s hrun
  rw [obsOrders, hin, hq] at hperm
  simp only [List.nil_append] at hperm
  have hlen : s.written.length = s.order := by
    have hl := hperm.length_eq
    simp only [List.length_map, List.length_range'] at hl
    exact hl
  refine ⟨readAllPackets_encodeFile _ hgood, hlen, ?_⟩
  rw [hlen]
  exact hperm

/-- Concrete instance of the amended theorem at the racing execution: the
read-back order values `[2, 1]` are a permutation of `range' 1 2`. -/
theorem recording_order_permutation_witness :
    readAllPackets (encodeFile
      [⟨2, [], [], 0, 2, []⟩, ⟨1, [], [], 0, 1, []⟩]) =
      .ok [⟨2, [], [], 0, 2, []⟩, ⟨1, [], [], 0, 1, []⟩] ∧
    ([⟨2, [], [], 0, 2, []⟩,
      (⟨1, [], [], 0, 1, []⟩ : TrafficReaderPacket)] : List _).length = 2 ∧
    ([⟨2, [], [], 0, 2, []⟩,
      (⟨1, [], [], 0, 1, []⟩ : TrafficReaderPacket)].map
        TrafficReaderPacket.order).Perm
      (List.range' 1 [⟨2, [], [], 0, 2, []⟩,
        (⟨1, [], [], 0, 1, []⟩ : TrafficReaderPacket)].length) :=
  recording_order_permutation
    ⟨2, [], [], [⟨2, [], [], 0, 2, []⟩, ⟨1, [], [], 0, 1, []⟩]⟩
    (ObsSteps.tail (ObsSteps.tail (ObsSteps.tail (ObsSteps.tail
      (ObsSteps.tail (ObsSteps.tail ObsSteps.refl
        (ObsStep.fetch ⟨0, [], [], []⟩ ⟨1, [], [], 0, []⟩))
        (ObsStep.fetch ⟨1, [⟨1, [], [], 0, 1, []⟩], [], []⟩
          ⟨2, [], [], 0, []⟩))
        (ObsStep.push ⟨2, [⟨1, [], [], 0, 1, []⟩, ⟨2, [], [], 0, 2, []⟩],
          [], []⟩ ⟨2, [], [], 0, 2, []⟩ [⟨1, [], [], 0, 1, []⟩] [] rfl))
        (ObsStep.push ⟨2, [⟨1, [], [], 0, 1, []⟩], [⟨2, [], [], 0, 2, []⟩],
          []⟩ ⟨1, [], [], 0, 1, []⟩ [] [] rfl))
        (ObsStep.write ⟨2, [], [⟨2, [], [], 0, 2, []⟩,
          ⟨1, [], [], 0, 1, []⟩], []⟩ ⟨2, [], [], 0, 2, []⟩
          [⟨1, [], [], 0, 1, []⟩] rfl))
        (ObsStep.write ⟨2, [], [⟨1, [], [], 0, 1, []⟩],
          [⟨2, [], [], 0, 2, []⟩]⟩ ⟨1, [], [], 0, 1, []⟩ [] rfl))
    rfl rfl (by decide)

/-- Terminal result of a `Recording`: OK, or the failure stored by a failed
`tryPush` (`ProducerConsumerQueueWouldBlock`) or by the writer thread
(`LogWriteFailed`). -/
inductive RStatus where
  | ok
  | queueWouldBlock
  | logWriteFailed
  deriving Repr, DecidableEq

/-- A snapshot of one `Recording` together with its queue and writer: the
pending queue contents, whether the producer side is closed, the terminal
`_result`, the `_shouldRecord` flag of the recorder, and the writer's
`_written` counter, file bytes and exit flag. -/
structure SysState where
  queue : List TrafficReaderPacket
  closed : Bool
  result : RStatus
  shouldRecord : Bool
  written : Nat
  file : List Nat
  writerDone : Bool
  deriving Repr, DecidableEq

/-- Modelled from the spec: the queue's cost function is the summed
`message.size()` of the enqueued packets (`CostFunction` in the source;
the queue itself lives outside this repository's sources). -/
def queueCost (q : List TrafficReaderPacket) : Nat :=
  (q.map (fun p => p.message.length)).sum

/-- The state right after `start`: empty queue, open, OK, recording. -/
def initState : SysState := ⟨[], false, .ok, true, 0, [], false⟩

/-- Interleaved atomic steps of producers (`observe`/`pushRecord`) and the
writer thread.  Queue semantics (cost-bounded `tryPush`, FIFO delivery,
drain-then-`Consumed` after `close`) are modelled from the spec, since the
queue implementation is outside the repository's sources; everything else
follows `pushRecord`, `observe` and `Recording::run`. -/
inductive Step (maxQueueDepth maxLogSize : Nat) : SysState → SysState → Prop where
  | pushOk (s : SysState) (p : TrafficReaderPacket) :
      s.shouldRecord = true → s.closed = false →
      queueCost s.queue + p.message.length ≤ maxQueueDepth →
      Step maxQueueDepth maxLogSize s { s with queue := s.queue ++ [p] }
  | pushFull (s : SysState) (p : TrafficReaderPacket) :
      s.shouldRecord = true → s.closed = false →
      maxQueueDepth < queueCost s.queue + p.message.length →
      Step maxQueueDepth maxLogSize s
        { s with
          closed := true,
          result := (if s.result = RStatus.ok then RStatus.queueWouldBlock
            else s.result),
          shouldRecord := false }
  | pushClosed (s : SysState) (p : TrafficReaderPacket) :
      s.shouldRecord = true → s.closed = true →
      Step maxQueueDepth maxLogSize s { s with shouldRecord := false }
  | writeOk (s : SysState) (p : TrafficReaderPacket)
      (rest : List TrafficReaderPacket) :
      s.queue = p :: rest → s.writerDone = false →
      s.written + frameSize p < maxLogSize →
      Step maxQueueDepth maxLogSize s
        { s with
          queue := rest,
          written := s.written + frameSize p,
          file := s.file ++ encodePacket p }
  | writeFail (s : SysState) (p : TrafficReaderPacket)
      (rest : List TrafficReaderPacket) :
      s.queue = p :: rest → s.writerDone = false →
      maxLogSize ≤ s.written + frameSize p →
      Step maxQueueDepth maxLogSize s
        { s with
          queue := rest,
          written := s.written + frameSize p,
          result := .logWriteFailed,
          writerDone := true }
  | consumed (s : SysState) :
      s.queue = [] → s.closed = true → s.writerDone = false →
      Step maxQueueDepth maxLogSize s { s with writerDone := true }

/-- Reflexive-transitive closure of `Step`. -/
inductive Steps (maxQueueDepth maxLogSize : Nat) (s : SysState) :
    SysState → Prop where
  | refl : Steps maxQueueDepth maxLogSize s s
  | tail {t u : SysState} : Steps maxQueueDepth maxLogSize s t →
      Step maxQueueDepth maxLogSize t u → Steps maxQueueDepth maxLogSize s u

theorem drop_cons_succ {α : Type u} (l : List α) (k : Nat) (p : α)
    (rest : List α) (h : l.drop k = p :: rest) : l.drop (k + 1) = rest := by
  have h2 : l.drop (k + 1) = (l.drop k).drop 1 := by
    rw [List.drop_drop, Nat.add_comm]
  rw [h2, h]
  rfl

theorem take_succ_of_drop {α : Type u} :
    ∀ (k : Nat) (l : List α) (p : α) (rest : List α),
    l.drop k = p :: rest → l.take (k + 1) = l.take k ++ [p]
  | 0, l, p, rest, h => by
    rw [List.drop_zero] at h
    subst h
    rfl
  | k + 1, [], p, rest, h => by cases h
  | k + 1, a :: l, p, rest, h => by
    have ih := take_succ_of_drop k l p rest h
    show a :: l.take (k + 1) = a :: (l.take k ++ [p])
    rw [ih]

theorem steps_closed_inv (maxD maxL : Nat) (s t : SysState)
    (hst : Steps maxD maxL s t) (hc : s.closed = true) :
    t.closed = true ∧
    ∃ k j, j ≤ k ∧ t.queue = s.queue.drop k ∧
      t.file = s.file ++ encodeFile (s.queue.take j) ∧
      (t.writerDone = false → j = k) := by
  induction hst with
  | refl =>
    refine ⟨hc, 0, 0, Nat.le_refl 0, (List.drop_zero _).symm, ?_, fun _ => rfl⟩
    rw [List.take_zero, encodeFile_nil, List.append_nil]
  | tail hst' hstep ih =>
    rename_i t2 u2
    obtain ⟨htc, k, j, hjk, hq, hf, himp⟩ := ih
    cases hstep with
    | pushOk p hrec hcl hcost =>
      rw [htc] at hcl
      cases hcl
    | pushFull p hrec hcl hcost =>
      rw [htc] at hcl
      cases hcl
    | pushClosed p hrec hcl =>
      exact ⟨htc, k, j, hjk, hq, hf, himp⟩
    | writeOk p rest hq2 hwd hlt =>
      have hj : j = k := himp hwd
      subst hj
      have hdk : s.queue.drop j = p :: rest := by rw [← hq, hq2]
      refine ⟨htc, j + 1, j + 1, Nat.le_refl _, ?_, ?_, fun _ => rfl⟩
      · show rest = s.queue.drop (j + 1)
        rw [drop_cons_succ s.queue j p rest hdk]
      · show t2.file ++ encodePacket p = _
        rw [hf, take_succ_of_drop j s.queue p rest hdk, encodeFile_append,
          encodeFile_cons, encodeFile_nil, List.append_nil, List.append_assoc]
    | writeFail p rest hq2 hwd hge =>
      have hj : j = k := himp hwd
      subst hj
      have hdk : s.queue.drop j = p :: rest := by rw [← hq, hq2]
      refine ⟨htc, j + 1, j, Nat.le_succ j, ?_, hf, ?_⟩
      · show rest = s.queue.drop (j + 1)
        rw [drop_cons_succ s.queue j p rest hdk]
      · intro h
        cases h
    | consumed hq2 hcl2 hwd =>
      refine ⟨htc, k, j, hjk, hq, hf, ?_⟩
      intro h
      cases h

theorem steps_writerDone_frozen (maxD maxL : Nat) (s t : SysState)
    (hst : Steps maxD maxL s t) (hw : s.writerDone = true) :
    t.writerDone = true ∧ t.file = s.file := by
  induction hst with
  | refl => exact ⟨hw, rfl⟩
  | tail hst' hstep ih =>
    obtain ⟨hwd, hf⟩ := ih
    cases hstep with
    | pushOk p hrec hcl hcost => exact ⟨hwd, hf⟩
    | pushFull p hrec hcl hcost => exact ⟨hwd, hf⟩
    | pushClosed p hrec hcl => exact ⟨hwd, hf⟩
    | writeOk p rest hq2 hwd2 hlt => rw [hwd] at hwd2; cases hwd2
    | writeFail p rest hq2 hwd2 hge => rw [hwd] at hwd2; cases hwd2
    | consumed hq2 hcl2 hwd2 => rw [hwd] at hwd2; cases hwd2

theorem step_failed_inv (maxD maxL : Nat) (s t : SysState)
    (h : Step maxD maxL s t)
    (hs : s.result ≠ .ok → s.closed = true ∨ s.writerDone = true) :
    t.result ≠ .ok → t.closed = true ∨ t.writerDone = true := by
  cases h with
  | pushOk p hrec hcl hcost => exact hs
  | pushFull p hrec hcl hcost => intro _; exact Or.inl rfl
  | pushClosed p hrec hcl => exact hs
  | writeOk p rest hq2 hwd hlt => exact hs
  | writeFail p rest hq2 hwd hge => intro _; exact Or.inr rfl
  | consumed hq2 hcl2 hwd => intro _; exact Or.inr rfl

/-- In any execution from a fresh recording, a failed terminal result implies
that the queue is closed or the writer has exited: the two failure paths of
the source (`pushRecord` closing the queue, and the writer thread's terminal
catch) leave exactly this mark. -/
theorem steps_failed_inv (maxD maxL : Nat) (t : SysState)
    (hst : Steps maxD maxL initState t) :
    t.result ≠ .ok → t.closed = true ∨ t.writerDone = true := by
  induction hst with
  | refl => intro h; exact absurd rfl h
  | tail hst' hstep ih => exact step_failed_inv maxD maxL _ _ hstep ih

/-- Claim C3 counterexample (closed): a packet is accepted, a second push
fails (queue full) and marks the recording failed with `QueueWouldBlock` —
and the writer thread afterwards still appends the first packet's frame to
the file, so a frame is appended after the transition to the failed state. -/
theorem failed_recording_appends_counterexample :
    Step 1 100 initState
      ⟨[⟨0, [], [], 0, 1, [7]⟩], false, .ok, true, 0, [], false⟩ ∧
    Step 1 100 ⟨[⟨0, [], [], 0, 1, [7]⟩], false, .ok, true, 0, [], false⟩
      ⟨[⟨0, [], [], 0, 1, [7]⟩], true, .queueWouldBlock, false, 0, [], false⟩ ∧
    (⟨[⟨0, [], [], 0, 1, [7]⟩], true, .queueWouldBlock, false, 0, [],
      false⟩ : SysState).result ≠ .ok ∧
    Step 1 100
      ⟨[⟨0, [], [], 0, 1, [7]⟩], true, .queueWouldBlock, false, 0, [], false⟩
      ⟨[], true, .queueWouldBlock, false, 31,
        encodePacket ⟨0, [], [], 0, 1, [7]⟩, false⟩ ∧
    encodePacket ⟨0, [], [], 0, 1, [7]⟩ ≠ [] := by
  refine ⟨?_, ?_, by decide, ?_, by decide⟩
  · exact Step.pushOk initState ⟨0, [], [], 0, 1, [7]⟩ rfl rfl (by decide)
  · exact Step.pushFull _ ⟨0, [], [], 0, 2, [8]⟩ rfl rfl (by decide)
  · exact Step.writeOk _ ⟨0, [], [], 0, 1, [7]⟩ [] rfl rfl (by decide)

/-- Claim C3 as amended: once a recording is in a failed state, every frame
appended to the file afterwards is the encoding of a packet that was already
in the queue at the failure (a prefix of that queue): no packet observed
after the transition is ever written.  When the failure was set by the writer
thread itself (`writerDone`), no frames at all are appended afterwards. -/
theorem failed_recording_no_new_frames (maxD maxL : Nat) (s t : SysState)
    (hfail : s.result ≠ .ok)
    (hinv : s.closed = true ∨ s.writerDone = true)
    (hst : Steps maxD maxL s t) :
    (∃ j, t.file = s.file ++ encodeFile (s.queue.take j)) ∧
    (s.writerDone = true → t.file = s.file) := by
  constructor
  · rcases hinv with hcl | hwd
    · obtain ⟨_, k, j, _, _, hf, _⟩ := steps_closed_inv maxD maxL s t hst hcl
      exact ⟨j, hf⟩
    · obtain ⟨_, hf⟩ := steps_writerDone_frozen maxD maxL s t hst hwd
      refine ⟨0, ?_⟩
      rw [hf, List.take_zero, encodeFile_nil, List.append_nil]
  · intro hwd
    exact (steps_writerDone_frozen maxD maxL s t hst hwd).2

/-- Concrete instance of the amended theorem: from the failed state of the
counterexample, the one frame the writer still appends is the take-1 prefix
of the queue at failure time. -/
theorem failed_recording_no_new_frames_witness :
    (∃ j, (⟨[], true, .queueWouldBlock, false, 31,
        encodePacket ⟨0, [], [], 0, 1, [7]⟩, false⟩ : SysState).file =
      (⟨[⟨0, [], [], 0, 1, [7]⟩], true, .queueWouldBlock, false, 0, [],
        false⟩ : SysState).file ++
        encodeFile ((⟨[⟨0, [], [], 0, 1, [7]⟩], true, .queueWouldBlock,
          false, 0, [], false⟩ : SysState).queue.take j)) ∧
    ((⟨[⟨0, [], [], 0, 1, [7]⟩], true, .queueWouldBlock, false, 0, [],
      false⟩ : SysState).writerDone = true →
      (⟨[], true, .queueWouldBlock, false, 31,
        encodePacket ⟨0, [], [], 0, 1, [7]⟩, false⟩ : SysState).file =
      (⟨[⟨0, [], [], 0, 1, [7]⟩], true, .queueWouldBlock, false, 0, [],
        false⟩ : SysState).file) :=
  failed_recording_no_new_frames 1 100
    ⟨[⟨0, [], [], 0, 1, [7]⟩], true, .queueWouldBlock, false, 0, [], false⟩
    ⟨[], true, .queueWouldBlock, false, 31,
      encodePacket ⟨0, [], [], 0, 1, [7]⟩, false⟩
    (by decide) (Or.inl rfl)
    (Steps.tail Steps.refl
      (Step.writeOk _ ⟨0, [], [], 0, 1, [7]⟩ [] rfl rfl (by decide)))

/-- The errors `start` can raise (all `ErrorCodes::BadValue` uasserts). -/
inductive StartErr where
  | badValue
  deriving Repr, DecidableEq

/-- The process-global configuration visible to the recorder:
`trafficRecordingDirectory` (a mutable startup server parameter, modelled as
a character list) together with the rest of the global configuration, which
`start` never touches. -/
structure GlobalConfig where
  trafficRecordingDirectory : List Char
  otherSettings : List (String × String)
  deriving Repr, DecidableEq

/-- The recorder's own global state touched by `start`. -/
structure RecorderState where
  recordingActive : Bool
  shouldRecord : Bool
  deriving Repr, DecidableEq

/-- `TrafficRecorder::Recording::_getPath`: asserts the filename nonempty,
then — as a side effect on the global — pops the trailing `/` off
`trafficRecordingDirectory` if present, builds `parentPath / filename` and
asserts the result is a simple filename (its parent path is the recording
directory, i.e. the filename contains no separator).  Returns the possibly
mutated directory together with the path or the error. -/
def getPath (dir filename : List Char) :
    List Char × Except StartErr (List Char) :=
  if filename = [] then (dir, .error .badValue)
  else
    let dir2 := if dir.getLast? = some '/' then dir.dropLast else dir
    if '/' ∈ filename then (dir2, .error .badValue)
    else (dir2, .ok (dir2 ++ '/' :: filename))

/-- `TrafficRecorder::start`: asserts the recording directory is set, asserts
no recording is active, then constructs the `Recording` (running `_getPath`,
which may mutate the directory) and flips `_shouldRecord` on success. -/
def start (cfg : GlobalConfig) (st : RecorderState) (filename : List Char) :
    GlobalConfig × RecorderState × Except StartErr Unit :=
  if cfg.trafficRecordingDirectory = [] then (cfg, st, .error .badValue)
  else if st.recordingActive then (cfg, st, .error .badValue)
  else
    match getPath cfg.trafficRecordingDirectory filename with
    | (dir2, .error e) =>
      ({ cfg with trafficRecordingDirectory := dir2 }, st, .error e)
    | (dir2, .ok _) =>
      ({ cfg with trafficRecordingDirectory := dir2 },
       ⟨true, true⟩, .ok ())

theorem getPath_dir (dir filename : List Char) (hne : filename ≠ []) :
    (getPath dir filename).1 =
      if dir.getLast? = some '/' then dir.dropLast else dir := by
  rw [getPath, if_neg hne]
  by_cases hsep : '/' ∈ filename
  · rw [if_pos hsep]
  · rw [if_neg hsep]

theorem start_ok_shape (cfg : GlobalConfig) (st : RecorderState)
    (filename : List Char)
    (hok : (start cfg st filename).2.2 = .ok ()) :
    cfg.trafficRecordingDirectory ≠ [] ∧ filename ≠ [] ∧
    (start cfg st filename).1.trafficRecordingDirectory =
      (if cfg.trafficRecordingDirectory.getLast? = some '/' then
        cfg.trafficRecordingDirectory.dropLast
      else cfg.trafficRecordingDirectory) ∧
    (start cfg st filename).1.otherSettings = cfg.otherSettings := by
  by_cases hdir : cfg.trafficRecordingDirectory = []
  · rw [start, if_pos hdir] at hok
    cases hok
  · by_cases hact : st.recordingActive
    · rw [start, if_neg hdir, if_pos hact] at hok
      cases hok
    · by_cases hfn : filename = []
      · rw [start, if_neg hdir, if_neg hact] at hok
        rw [getPath, if_pos hfn] at hok
        cases hok
      · refine ⟨hdir, hfn, ?_, ?_⟩ <;>
        · rw [start, if_neg hdir, if_neg hact]
          rw [show getPath cfg.trafficRecordingDirectory filename =
            ((getPath cfg.trafficRecordingDirectory filename).1,
             (getPath cfg.trafficRecordingDirectory filename).2) from rfl,
            getPath_dir _ _ hfn]
          cases h2 : (getPath cfg.trafficRecordingDirectory filename).2 <;> rfl

/-- Claim C10 (directory mutation): every successful `start` whose configured
`trafficRecordingDirectory` ends in `/` mutates that global value by removing
the trailing `/` (so the stored directory plus a `/` reconstructs the old
value), and `start` changes no other global configuration state. -/
theorem start_trims_directory (cfg : GlobalConfig) (st : RecorderState)
    (filename : List Char)
    (hok : (start cfg st filename).2.2 = .ok ())
    (hslash : cfg.trafficRecordingDirectory.getLast? = some '/') :
    (start cfg st filename).1.trafficRecordingDirectory =
      cfg.trafficRecordingDirectory.dropLast ∧
    (start cfg st filename).1.trafficRecordingDirectory ++ ['/'] =
      cfg.trafficRecordingDirectory ∧
    (start cfg st filename).1.otherSettings = cfg.otherSettings := by
  obtain ⟨hdir, _, hshape, hother⟩ := start_ok_shape cfg st filename hok
  rw [hshape, if_pos hslash]
  refine ⟨rfl, ?_, hother⟩
  have hlast : cfg.trafficRecordingDirectory.getLast hdir = '/' := by
    have := List.getLast?_eq_getLast cfg.trafficRecordingDirectory hdir
    rw [this] at hslash
    exact Option.some.inj hslash
  conv_rhs => rw [← List.dropLast_append_getLast hdir]
  rw [hlast]

/-- Concrete instance of the directory-mutation theorem: starting with
directory `"d/"` leaves `"d"` in the global configuration. -/
theorem start_trims_directory_witness :
    (start ⟨['d', '/'], [("a", "b")]⟩ ⟨false, false⟩
      ['f']).1.trafficRecordingDirectory = ['d', '/'].dropLast ∧
    (start ⟨['d', '/'], [("a", "b")]⟩ ⟨false, false⟩
      ['f']).1.trafficRecordingDirectory ++ ['/'] = ['d', '/'] ∧
    (start ⟨['d', '/'], [("a", "b")]⟩ ⟨false, false⟩
      ['f']).1.otherSettings = [("a", "b")] :=
  start_trims_directory ⟨['d', '/'], [("a", "b")]⟩ ⟨false, false⟩ ['f']
    rfl (by decide)

end TrafficRecording
